import Mathlib

/-!
Verification of the l402-ts request-orchestration and policy engine.

This file gives a shallow embedding of the core components of the
repository (budget controller, BOLT11 amount extraction, challenge
parsing, credential cache, spending log and the fetch orchestrator) as
executable Lean definitions, translated from the TypeScript source, and
proves the behavioural claims of the specification against them.

Modelling conventions:
* JS numbers that hold satoshi amounts and millisecond timestamps are
  modelled as `Nat` (they are non-negative in every reachable state; the
  JS comparison `ts >= now - W` with a possibly negative right-hand side
  agrees with truncated `Nat` subtraction for non-negative `ts`).
* `Date.now()` is passed explicitly as a `now : Nat` argument.
* A method that mutates its object is modelled as a function returning
  the new object (paired with its return value when it has one).
* Thrown exceptions are modelled with `Option`/`Except` values.
-/

namespace L402

/-- Error taxonomy of src/errors.ts restricted to the constructors the
    modelled core can produce or pass through. -/
inductive L402Err where
  | domainNotAllowed (domain : String)
  | budgetExceeded (limitType : String) (limitSats currentSats invoiceSats : Nat)
  | paymentFailed (reason : String) (bolt11 : Option String)
  | invoiceExpired (bolt11 : Option String)
  | challengeParse (header reason : String)
  deriving DecidableEq, Repr

/-- One entry of BudgetController's private `_payments` array:
    `{ timestamp, amount }`. -/
structure Payment where
  timestamp : Nat
  amount : Nat
  deriving DecidableEq, Repr

/-- State of src/budget.ts `BudgetController`: the configured limits, the
    optional allow-list and the recorded successful payments. -/
structure BudgetController where
  maxSatsPerRequest : Nat := 1000
  maxSatsPerHour : Nat := 10000
  maxSatsPerDay : Nat := 50000
  allowedDomains : Option (List String) := none
  payments : List Payment := []
  deriving DecidableEq, Repr

/-- Lowercasing of a string, as JS `toLowerCase` acts on ASCII. -/
def strLower (s : String) : String := String.mk (s.data.map Char.toLower)

namespace BudgetController

/-- Sum of the amounts of the payments with `timestamp >= cutoff`:
    the `filter`/`reduce` pattern used by `check`, `spentLastHour` and
    `spentLastDay` in src/budget.ts. -/
def windowSum (ps : List Payment) (cutoff : Nat) : Nat :=
  ((ps.filter fun p => decide (cutoff ≤ p.timestamp)).map Payment.amount).sum

/-- The `_prune` method: repeatedly shift the head while it is older than
    24 hours, i.e. drop the maximal too-old head segment. -/
def _prune (b : BudgetController) (now : Nat) : BudgetController :=
  { b with payments := b.payments.dropWhile fun p => decide (p.timestamp < now - 86400000) }

/-- The domain that the allow-list guard of `check` rejects, if any:
    `allowedDomains` is configured, `domain` is a truthy (non-empty)
    string, and its lowercase form is not in the lowercased set. -/
def blockedDomain (b : BudgetController) (domain : Option String) : Option String :=
  match b.allowedDomains, domain with
  | some ds, some d =>
      if d ≠ "" ∧ ¬ (ds.map strLower).contains (strLower d) then some d else none
  | _, _ => none

/-- The `check(amountSats, domain?)` method. Returns the thrown error (if
    any) together with the controller state after the call (the call
    prunes old entries once it is past the per-request guard). -/
def check (b : BudgetController) (now : Nat) (amountSats : Nat) (domain : Option String) :
    Option L402Err × BudgetController :=
  match blockedDomain b domain with
  | some d => (some (L402Err.domainNotAllowed d), b)
  | none =>
    if amountSats > b.maxSatsPerRequest then
      (some (L402Err.budgetExceeded "per_request" b.maxSatsPerRequest 0 amountSats), b)
    else
      let b1 := _prune b now
      let spentHour := windowSum b1.payments (now - 3600000)
      if spentHour + amountSats > b.maxSatsPerHour then
        (some (L402Err.budgetExceeded "per_hour" b.maxSatsPerHour spentHour amountSats), b1)
      else
        let spentDay := windowSum b1.payments (now - 86400000)
        if spentDay + amountSats > b.maxSatsPerDay then
          (some (L402Err.budgetExceeded "per_day" b.maxSatsPerDay spentDay amountSats), b1)
        else
          (none, b1)

/-- The `recordPayment(amountSats)` method: append an entry stamped with
    the current time. -/
def recordPayment (b : BudgetController) (now : Nat) (amountSats : Nat) : BudgetController :=
  { b with payments := b.payments ++ [{ timestamp := now, amount := amountSats }] }

/-- The `spentLastHour()` method: prune, then sum the trailing-hour
    window. Returns the value and the pruned state. -/
def spentLastHour (b : BudgetController) (now : Nat) : Nat × BudgetController :=
  let b1 := _prune b now
  (windowSum b1.payments (now - 3600000), b1)

/-- The `spentLastDay()` method: prune, then sum the trailing-24h
    window. Returns the value and the pruned state. -/
def spentLastDay (b : BudgetController) (now : Nat) : Nat × BudgetController :=
  let b1 := _prune b now
  (windowSum b1.payments (now - 86400000), b1)

end BudgetController

/-! ## BOLT11 amount extraction (src/bolt11.ts)

The source matches the lowercased, trimmed invoice against the regex
`^ln(?<network>[a-z]+?)(?<amount>\d+)?(?<multiplier>[munp])?1` and then
computes `amount * 100000000 * num / denom` with BigInt arithmetic.
The matcher below implements exactly that regex with its backtracking
preferences: the lazy network group tries the shortest extension first,
the greedy optional digit group tries the longest run first and absence
last, and the optional multiplier class prefers presence. -/

namespace Bolt11

/-- Whitespace for the purposes of JS `String.trim` on the inputs in
    scope (space, tab, CR, LF). -/
def isWsChar (c : Char) : Bool := c = ' ' ∨ c = '\t' ∨ c = '\n' ∨ c = '\r'

/-- Strip leading and trailing whitespace from a character list (JS
    `trim`). -/
def trimChars (cs : List Char) : List Char :=
  ((cs.dropWhile isWsChar).reverse.dropWhile isWsChar).reverse

/-- Membership in the regex character class `[munp]`. -/
def isMultChar (c : Char) : Bool := c = 'm' ∨ c = 'u' ∨ c = 'n' ∨ c = 'p'

/-- Scale factor of a multiplier, as a rational `num / denom` of BTC. -/
structure MultScale where
  num : Nat
  denom : Nat
  deriving DecidableEq, Repr

/-- The `MULTIPLIERS` table of src/bolt11.ts. -/
def MULTIPLIERS (c : Char) : Option MultScale :=
  if c = 'm' then some ⟨1, 1000⟩
  else if c = 'u' then some ⟨1, 1000000⟩
  else if c = 'n' then some ⟨1, 1000000000⟩
  else if c = 'p' then some ⟨1, 1000000000000⟩
  else none

/-- The `SATS_PER_BTC` constant. -/
def SATS_PER_BTC : Nat := 100000000

/-- Value of a decimal digit string, as JS `BigInt(amountStr)`. -/
def digitsVal (ds : List Char) : Nat :=
  ds.foldl (fun a c => a * 10 + (c.toNat - 48)) 0

/-- Match the regex tail `[munp]?1` at the start of `cs`, returning the
    captured multiplier. The greedy optional class takes a multiplier
    character when the literal `1` follows it; otherwise the engine
    backtracks to the empty alternative, which needs a literal `1`. -/
def tryMult1 (cs : List Char) : Option (Option Char) :=
  match cs with
  | c :: rest =>
    if isMultChar c then
      match rest with
      | '1' :: _ => some (some c)
      | _ => none
    else if c = '1' then some none else none
  | [] => none

/-- Match `(\d+)?[munp]?1` at the start of `cs`, where the first `k`
    characters of `cs` are the digits still available to the greedy
    group. Longest digit run is tried first; `k = 0` is the
    group-absent alternative. Returns the captured amount digits and
    multiplier. -/
def tryAmount (cs : List Char) : Nat → Option (Option (List Char) × Option Char)
  | 0 =>
    match tryMult1 cs with
    | some m => some (none, m)
    | none => none
  | Nat.succ j =>
    match tryMult1 (cs.drop (j + 1)) with
    | some m => some (some (cs.take (j + 1)), m)
    | none => tryAmount cs j

/-- Match `([a-z]+?)(\d+)?([munp]?)1` at the start of `cs`: the lazy
    network group consumes one lowercase letter at a time, trying the
    regex tail after each extension. -/
def matchHrp : List Char → Option (Option (List Char) × Option Char)
  | [] => none
  | c :: rest =>
    if 'a' ≤ c ∧ c ≤ 'z' then
      match tryAmount rest (rest.takeWhile Char.isDigit).length with
      | some r => some r
      | none => matchHrp rest
    else none

/-- Amount computation of `extractAmountSats` after the regex has
    matched: `amount * SATS_PER_BTC * num / denom` with the multiplier's
    scale, or `amount * SATS_PER_BTC` without a multiplier. `Nat`
    division is the BigInt truncating division of the source. -/
def satsOfMatch (amountDigits : List Char) (multiplier : Option Char) : Option Nat :=
  let amount := digitsVal amountDigits
  match multiplier with
  | some m => (MULTIPLIERS m).map fun sc => amount * SATS_PER_BTC * sc.num / sc.denom
  | none => some (amount * SATS_PER_BTC)

/-- Core of `extractAmountSats` on the already trimmed and lowercased
    character list: require the literal prefix `ln`, run the matcher,
    and convert the captures. -/
def extractCore (cs : List Char) : Option Nat :=
  match cs with
  | 'l' :: 'n' :: rest =>
    match matchHrp rest with
    | none => none
    | some (amountStr, multiplier) =>
      match amountStr with
      | none => none
      | some ds => satsOfMatch ds multiplier
  | _ => none

end Bolt11

/-- Number of low-order bits a non-negative integer loses when rounded
    to a 53-bit significand: the count of halvings needed to bring it
    below 2^53. Structural fuel of 971 covers every value below the
    IEEE-754 double overflow threshold near 2^1024. -/
def excessBitsAux : Nat → Nat → Nat
  | 0, _ => 0
  | fuel + 1, m => if m < 2 ^ 53 then 0 else excessBitsAux fuel (m / 2) + 1

/-- Excess significand bits of a non-negative integer beyond double
    precision. -/
def excessBits (n : Nat) : Nat := excessBitsAux 971 n

/-- The JS `Number(sats)` cast of a non-negative BigInt: the identity
    below 2^53, and otherwise rounding to the nearest 53-bit-significand
    double with ties to even. Values at or above the double overflow
    threshold (about 1.8e308, a three-hundred-digit amount field) would
    be Infinity in JS and are outside the modelled range. -/
def jsNumberOfNat (n : Nat) : Nat :=
  if n < 2 ^ 53 then n
  else
    let e := excessBits n
    let q := n / 2 ^ e
    let r := n % 2 ^ e
    if 2 ^ e < 2 * r ∨ (2 * r = 2 ^ e ∧ q % 2 = 1) then (q + 1) * 2 ^ e
    else q * 2 ^ e

/-- The `extractAmountSats(bolt11)` function of src/bolt11.ts: falsy
    (empty) input gives null, otherwise the input is trimmed and
    lowercased and matched, and the exact BigInt result goes through
    the final `Number(sats)` cast. -/
def extractAmountSats (bolt11 : String) : Option Nat :=
  if bolt11.data = [] then none
  else
    (Bolt11.extractCore ((Bolt11.trimChars bolt11.data).map Char.toLower)).map jsNumberOfNat

/-! ## Challenge parsing (src/challenge.ts)

`parseChallenge` applies two regexes (case-insensitive, unanchored):
quoted `(?:L402|LSAT)\s+macaroon="([^"]+)"\s*,\s*invoice="([^"]+)"` first,
then unquoted `(?:L402|LSAT)\s+macaroon=([^\s,]+)\s*,?\s*invoice=([^\s,]+)`.
The matchers below implement those regexes directly; the only place
where backtracking can change the outcome is the greedy `[^\s,]+`
macaroon group of the unquoted form, which is tried longest-first. -/

/-- The parsed challenge `{macaroon, invoice}`. -/
structure L402Challenge where
  macaroon : String
  invoice : String
  deriving DecidableEq, Repr

/-- A `ChallengeParseError` value: the offending header and a reason. -/
structure ChallengeParseErr where
  header : String
  reason : String
  deriving DecidableEq, Repr

namespace Challenge

/-- Case-insensitive character comparison, for the regex `i` flag. -/
def lowEq (a b : Char) : Bool := a.toLower == b.toLower

/-- Match a literal pattern case-insensitively at the start of the
    input, returning the rest of the input. -/
def matchLitCI : List Char → List Char → Option (List Char)
  | [], cs => some cs
  | _ :: _, [] => none
  | p :: ps, c :: cs => if lowEq p c then matchLitCI ps cs else none

/-- Maximal run of characters satisfying a class, and the rest. -/
def takeClass (p : Char → Bool) (cs : List Char) : List Char × List Char :=
  (cs.takeWhile p, cs.dropWhile p)

/-- Match the alternation `(?:L402|LSAT)` at the start of the input. -/
def matchSchemeAt (cs : List Char) : Option (List Char) :=
  match matchLitCI "l402".data cs with
  | some r => some r
  | none => matchLitCI "lsat".data cs

/-- Match the quoted challenge regex at the start of the input,
    returning the two captures. Every literal after a greedy class
    starts with a character outside that class, so no backtracking is
    needed in this form. -/
def matchQuotedAt (cs : List Char) : Option (List Char × List Char) := do
  let cs1 ← matchSchemeAt cs
  let (ws, cs2) := takeClass Bolt11.isWsChar cs1
  if ws.isEmpty then none else
  let cs3 ← matchLitCI "macaroon=\"".data cs2
  let (mac, cs4) := takeClass (fun c => c ≠ '"') cs3
  if mac.isEmpty then none else
  let cs5 ← matchLitCI "\"".data cs4
  let cs6 ← matchLitCI ",".data (cs5.dropWhile Bolt11.isWsChar)
  let cs7 ← matchLitCI "invoice=\"".data (cs6.dropWhile Bolt11.isWsChar)
  let (inv, cs8) := takeClass (fun c => c ≠ '"') cs7
  if inv.isEmpty then none else
  let _ ← matchLitCI "\"".data cs8
  pure (mac, inv)

/-- Leftmost search for the quoted form (JS `exec` scans positions left
    to right). -/
def searchQuoted : List Char → Option (List Char × List Char)
  | [] => none
  | c :: cs =>
    match matchQuotedAt (c :: cs) with
    | some r => some r
    | none => searchQuoted cs

/-- The character class `[^\s,]`. -/
def notWsComma (c : Char) : Bool := ¬ Bolt11.isWsChar c ∧ c ≠ ','

/-- Match the separator `\s*,?\s*` (deterministic: the following
    literal starts with `i`, which is neither whitespace nor comma). -/
def matchSep (cs : List Char) : List Char :=
  let cs1 := cs.dropWhile Bolt11.isWsChar
  let cs2 := match cs1 with
    | ',' :: t => t
    | _ => cs1
  cs2.dropWhile Bolt11.isWsChar

/-- Backtracking over the greedy macaroon group of the unquoted form:
    with `mac` the maximal `[^\s,]+` run and `rest` the input after it,
    try macaroon lengths from `k` down to 1, each followed by
    `\s*,?\s*invoice=` and a non-empty `[^\s,]+` invoice capture. -/
def tryMacSplit (mac rest : List Char) : Nat → Option (List Char × List Char)
  | 0 => none
  | Nat.succ j =>
    match matchLitCI "invoice=".data (matchSep (mac.drop (j + 1) ++ rest)) with
    | some cs =>
      let (inv, _) := takeClass notWsComma cs
      if inv.isEmpty then tryMacSplit mac rest j else some (mac.take (j + 1), inv)
    | none => tryMacSplit mac rest j

/-- Match the unquoted challenge regex at the start of the input. -/
def matchNoQuoteAt (cs : List Char) : Option (List Char × List Char) := do
  let cs1 ← matchSchemeAt cs
  let (ws, cs2) := takeClass Bolt11.isWsChar cs1
  if ws.isEmpty then none else
  let cs3 ← matchLitCI "macaroon=".data cs2
  let (mac, rest) := takeClass notWsComma cs3
  tryMacSplit mac rest mac.length

/-- Leftmost search for the unquoted form. -/
def searchNoQuote : List Char → Option (List Char × List Char)
  | [] => none
  | c :: cs =>
    match matchNoQuoteAt (c :: cs) with
    | some r => some r
    | none => searchNoQuote cs

end Challenge

/-- The `parseChallenge(header)` function: empty header, no match, or an
    empty (post-trim) capture are `ChallengeParseError`s. -/
def parseChallenge (header : String) : Except ChallengeParseErr L402Challenge :=
  if header.data = [] then Except.error ⟨header, "empty header"⟩
  else
    let firstMatch :=
      match Challenge.searchQuoted header.data with
      | some r => some r
      | none => Challenge.searchNoQuote header.data
    match firstMatch with
    | none => Except.error ⟨header, "no L402/LSAT challenge found"⟩
    | some (mac, inv) =>
      let m := String.mk (Bolt11.trimChars mac)
      let i := String.mk (Bolt11.trimChars inv)
      if m.data = [] then Except.error ⟨header, "empty macaroon"⟩
      else if i.data = [] then Except.error ⟨header, "empty invoice"⟩
      else Except.ok ⟨m, i⟩

/-- The `findL402Challenge(headers)` function, with the header
    collection reduced to its case-insensitively looked-up
    `www-authenticate` entry: falsy header gives null, and a parse
    failure is swallowed into null. -/
def findL402Challenge (wwwAuthenticate : Option String) : Option L402Challenge :=
  match wwwAuthenticate with
  | none => none
  | some h => if h.data = [] then none else (parseChallenge h).toOption

/-! ## Credential cache (src/credential-cache.ts)

The JS `Map` preserves insertion order and is used as an LRU structure
by delete-then-set; it is modelled as an association list whose head is
the least recently used entry and whose keys every operation keeps
distinct (`delete` before `set`). -/

/-- A cached credential. -/
structure L402Credential where
  macaroon : String
  preimage : String
  createdAt : Nat
  expiresAt : Option Nat
  deriving DecidableEq, Repr

/-- Split a character list at every slash, keeping empty fields, as JS
    `path.split("/")`. -/
def splitSlash : List Char → List (List Char)
  | [] => [[]]
  | '/' :: rest => [] :: splitSlash rest
  | c :: rest =>
    match splitSlash rest with
    | seg :: segs => (c :: seg) :: segs
    | [] => [[c]]

/-- Non-empty path segments of a path string: `split("/")` followed by
    `filter(Boolean)`. -/
def pathParts (path : String) : List (List Char) :=
  (splitSlash path.data).filter fun s => !s.isEmpty

/-- The `cacheKey(domain, path)` function: lowercased trimmed domain,
    `::`, then `/` plus the first two non-empty path segments joined by
    `/` (all segments when fewer than two exist). -/
def cacheKey (domain path : String) : String :=
  let d := Bolt11.trimChars (domain.data.map Char.toLower)
  let parts := pathParts path
  let pfx :=
    if 2 ≤ parts.length then '/' :: List.intercalate ['/'] (parts.take 2)
    else '/' :: List.intercalate ['/'] parts
  String.mk (d ++ "::".data ++ pfx)

/-- State of `CredentialCache`: configuration plus the ordered map. -/
structure CredentialCache where
  maxSize : Nat := 256
  defaultTtlMs : Option Nat := some 3600000
  cache : List (String × L402Credential) := []
  deriving DecidableEq, Repr

namespace CredentialCache

/-- JS `Map.get`: the entry stored under a key (keys are distinct, so
    the first hit is the entry). -/
def lookup (key : String) (l : List (String × L402Credential)) : Option L402Credential :=
  (l.find? fun e => e.1 == key).map Prod.snd

/-- JS `Map.delete`: remove the entry stored under a key. -/
def eraseKey (key : String) (l : List (String × L402Credential)) :
    List (String × L402Credential) :=
  l.filter fun e => e.1 != key

/-- Expiry test of `get`: `expiresAt !== null && Date.now() >= expiresAt`. -/
def credExpired (cred : L402Credential) (now : Nat) : Bool :=
  match cred.expiresAt with
  | some e => decide (e ≤ now)
  | none => false

/-- The `get(domain, path)` method: look up by derived key; an expired
    hit is deleted and misses; a live hit is moved to the
    most-recently-used end and returned. -/
def get (st : CredentialCache) (domain path : String) (now : Nat) :
    Option L402Credential × CredentialCache :=
  let key := cacheKey domain path
  match lookup key st.cache with
  | none => (none, st)
  | some cred =>
    if credExpired cred now then
      (none, { st with cache := eraseKey key st.cache })
    else
      (some cred, { st with cache := eraseKey key st.cache ++ [(key, cred)] })

/-- The eviction loop of `put`: while the size exceeds the capacity,
    delete the first (least recently used) entry. -/
def evictOldest (maxSize : Nat) :
    List (String × L402Credential) → List (String × L402Credential)
  | [] => []
  | e :: rest => if maxSize < rest.length + 1 then evictOldest maxSize rest else e :: rest

/-- The `resolvedExpiresAt` computation of `put`: an explicitly passed
    value (possibly null) wins; otherwise `now + defaultTtlMs` when a
    default TTL is configured, else null. The outer `Option` is the
    `undefined` check, the inner one is null. -/
def resolvedExpiry (st : CredentialCache) (expiresAt : Option (Option Nat)) (now : Nat) :
    Option Nat :=
  match expiresAt with
  | some e => e
  | none =>
    match st.defaultTtlMs with
    | some ttl => some (now + ttl)
    | none => none

/-- The `put(domain, path, macaroon, preimage, expiresAt?)` method:
    build the credential, delete-then-set for move-to-end, evict while
    over capacity, and return the credential. -/
def put (st : CredentialCache) (domain path macaroon preimage : String)
    (expiresAt : Option (Option Nat)) (now : Nat) : L402Credential × CredentialCache :=
  let key := cacheKey domain path
  let cred : L402Credential :=
    { macaroon := macaroon, preimage := preimage, createdAt := now
      expiresAt := resolvedExpiry st expiresAt now }
  (cred, { st with cache := evictOldest st.maxSize (eraseKey key st.cache ++ [(key, cred)]) })

/-- The static `authorizationHeader` builder. -/
def authorizationHeader (cred : L402Credential) : String :=
  "L402 " ++ cred.macaroon ++ ":" ++ cred.preimage

/-- The `size` accessor. -/
def size (st : CredentialCache) : Nat := st.cache.length

end CredentialCache

/-! ## Spending log (src/spending-log.ts) and the orchestrator
(src/client.ts `L402Client.fetch`) -/

/-- One `PaymentRecord` of the spending log. -/
structure PaymentRecord where
  domain : String
  path : String
  amountSats : Nat
  preimage : String
  timestamp : Nat
  success : Bool
  deriving DecidableEq, Repr

/-- The `SpendingLog.record` call guarded by `amountSats !== null`, as
    both the failure and the success branches of `fetch` use it. -/
def logAttempt (log : List PaymentRecord) (domain path : String) (amountSats : Option Nat)
    (preimage : String) (now : Nat) (success : Bool) : List PaymentRecord :=
  match amountSats with
  | some a => log ++ [⟨domain, path, a, preimage, now, success⟩]
  | none => log

/-- An HTTP response, reduced to the parts `fetch` inspects: the status,
    the `www-authenticate` header (already looked up case-insensitively)
    and an opaque body standing for everything it passes through. -/
structure Resp where
  status : Nat
  wwwAuthenticate : Option String
  body : String
  deriving DecidableEq, Repr

/-- Result of one `wallet.payInvoice` call: a preimage, a thrown error
    that is an `instanceof L402Error`, or any other thrown value
    (carried as its message string). -/
inductive WalletResult where
  | ok (preimage : String)
  | errL402 (e : L402Err)
  | errOther (message : String)

/-- Externally observable effects of one `fetch` call, in order. -/
inductive Event where
  | httpCall (authorization : Option String)
  | payInvoice (bolt11 : String)
  deriving DecidableEq, Repr

/-- Whether an event is an underlying HTTP call. -/
def Event.isHttpCall : Event → Bool
  | Event.httpCall _ => true
  | _ => false

/-- Whether an event is a `wallet.payInvoice` invocation. -/
def Event.isPayInvoice : Event → Bool
  | Event.payInvoice _ => true
  | _ => false

/-- The environment one `fetch` call runs against: the response the
    server gives to the initial send, the response to the retry send,
    the wallet behaviour and the current time (time is frozen within
    the call; timestamps only distinguish across calls here). -/
structure FetchEnv where
  firstResponse : Resp
  retryResponse : Resp
  walletPay : String → WalletResult
  now : Nat

/-- Mutable state of an `L402Client`: optional budget controller (null
    disables checking and recording), credential cache and spending
    log. -/
structure ClientState where
  budget : Option BudgetController
  cache : CredentialCache
  log : List PaymentRecord

/-- Outcome of one `fetch` call: the returned response or thrown error,
    the client state after the call, and the effect trace. -/
structure FetchResult where
  result : Except L402Err Resp
  state : ClientState
  events : List Event

namespace L402Client

/-- The `L402Client.fetch` orchestration of src/client.ts, with the URL
    already resolved to its hostname and pathname and body buffering
    omitted (the body is opaque here): try a cached credential, send,
    pass non-402 and challenge-less 402 responses through, extract the
    amount, check the budget, pay, record, cache, and retry once. -/
def fetch (st : ClientState) (env : FetchEnv) (domain pathname : String) : FetchResult :=
  let cacheStep := CredentialCache.get st.cache domain pathname env.now
  let authHeader : Option String := cacheStep.1.map CredentialCache.authorizationHeader
  let st1 : ClientState := { st with cache := cacheStep.2 }
  let response := env.firstResponse
  let ev1 : List Event := [Event.httpCall authHeader]
  if response.status ≠ 402 then
    ⟨Except.ok response, st1, ev1⟩
  else
    match findL402Challenge response.wwwAuthenticate with
    | none => ⟨Except.ok response, st1, ev1⟩
    | some challenge =>
      let amountSats := extractAmountSats challenge.invoice
      let checkStep : Option L402Err × ClientState :=
        match st1.budget, amountSats with
        | some b, some a =>
          let r := BudgetController.check b env.now a (some domain)
          (r.1, { st1 with budget := some r.2 })
        | _, _ => (none, st1)
      match checkStep with
      | (some e, st2) => ⟨Except.error e, st2, ev1⟩
      | (none, st2) =>
        match env.walletPay challenge.invoice with
        | WalletResult.errL402 e =>
          ⟨Except.error e,
           { st2 with log := logAttempt st2.log domain pathname amountSats "" env.now false },
           ev1 ++ [Event.payInvoice challenge.invoice]⟩
        | WalletResult.errOther msg =>
          ⟨Except.error (L402Err.paymentFailed msg (some challenge.invoice)),
           { st2 with log := logAttempt st2.log domain pathname amountSats "" env.now false },
           ev1 ++ [Event.payInvoice challenge.invoice]⟩
        | WalletResult.ok preimage =>
          let budget2 : Option BudgetController :=
            match st2.budget, amountSats with
            | some b, some a => some (BudgetController.recordPayment b env.now a)
            | b?, _ => b?
          let log2 := logAttempt st2.log domain pathname amountSats preimage env.now true
          let cache2 :=
            (CredentialCache.put st2.cache domain pathname challenge.macaroon preimage
              none env.now).2
          ⟨Except.ok env.retryResponse,
           { budget := budget2, cache := cache2, log := log2 },
           ev1 ++ [Event.payInvoice challenge.invoice,
                   Event.httpCall (some ("L402 " ++ challenge.macaroon ++ ":" ++ preimage))]⟩

end L402Client

/-! ## Helper lemmas -/

/-- Dropping with a predicate implied by an earlier drop's predicate
    collapses to a single drop. -/
theorem dropWhile_dropWhile_of_imp {α : Type} (p q : α → Bool) (l : List α)
    (h : ∀ x, q x = true → p x = true) :
    (l.dropWhile q).dropWhile p = l.dropWhile p := by
  induction l with
  | nil => rfl
  | cons a t ih =>
    by_cases hq : q a = true
    · rw [List.dropWhile_cons_of_pos hq, List.dropWhile_cons_of_pos (h a hq), ih]
    · rw [List.dropWhile_cons_of_neg hq]

/-- Pruning entries below a cutoff that is at most the window cutoff
    leaves a window sum unchanged. -/
theorem windowSum_dropWhile_old (ps : List Payment) (c1 c2 : Nat) (h : c2 ≤ c1) :
    BudgetController.windowSum (ps.dropWhile fun p => decide (p.timestamp < c2)) c1
      = BudgetController.windowSum ps c1 := by
  induction ps with
  | nil => rfl
  | cons a t ih =>
    by_cases ha : a.timestamp < c2
    · rw [List.dropWhile_cons_of_pos (by simpa using ha), ih]
      unfold BudgetController.windowSum
      rw [List.filter_cons_of_neg (by simp only [decide_eq_true_eq]; omega)]
    · rw [List.dropWhile_cons_of_neg (by simpa using ha)]

/-- A `spentLastHour` reading at any later time is unaffected by an
    earlier prune. -/
theorem spentLastHour_prune (b : BudgetController) (now now2 : Nat) (h : now ≤ now2) :
    (BudgetController.spentLastHour (BudgetController._prune b now) now2).1
      = (BudgetController.spentLastHour b now2).1 := by
  show BudgetController.windowSum
      ((b.payments.dropWhile fun p => decide (p.timestamp < now - 86400000)).dropWhile
        fun p => decide (p.timestamp < now2 - 86400000)) (now2 - 3600000)
    = BudgetController.windowSum
      (b.payments.dropWhile fun p => decide (p.timestamp < now2 - 86400000)) (now2 - 3600000)
  rw [dropWhile_dropWhile_of_imp]
  intro x hx
  simp only [decide_eq_true_eq] at hx ⊢
  omega

/-- A `spentLastDay` reading at any later time is unaffected by an
    earlier prune. -/
theorem spentLastDay_prune (b : BudgetController) (now now2 : Nat) (h : now ≤ now2) :
    (BudgetController.spentLastDay (BudgetController._prune b now) now2).1
      = (BudgetController.spentLastDay b now2).1 := by
  show BudgetController.windowSum
      ((b.payments.dropWhile fun p => decide (p.timestamp < now - 86400000)).dropWhile
        fun p => decide (p.timestamp < now2 - 86400000)) (now2 - 86400000)
    = BudgetController.windowSum
      (b.payments.dropWhile fun p => decide (p.timestamp < now2 - 86400000)) (now2 - 86400000)
  rw [dropWhile_dropWhile_of_imp]
  intro x hx
  simp only [decide_eq_true_eq] at hx ⊢
  omega

/-- Branch characterization of `check`: the guards are evaluated in the
    fixed order domain allow-list, per-request, per-hour, per-day, the
    windows read through the pruned state, and the resulting state is
    the original one before pruning and the pruned one after it. -/
theorem check_eq (b : BudgetController) (now amt : Nat) (dom : Option String) :
    BudgetController.check b now amt dom =
      match BudgetController.blockedDomain b dom with
      | some d => (some (L402Err.domainNotAllowed d), b)
      | none =>
        if b.maxSatsPerRequest < amt then
          (some (L402Err.budgetExceeded "per_request" b.maxSatsPerRequest 0 amt), b)
        else if b.maxSatsPerHour < (BudgetController.spentLastHour b now).1 + amt then
          (some (L402Err.budgetExceeded "per_hour" b.maxSatsPerHour
            (BudgetController.spentLastHour b now).1 amt), BudgetController._prune b now)
        else if b.maxSatsPerDay < (BudgetController.spentLastDay b now).1 + amt then
          (some (L402Err.budgetExceeded "per_day" b.maxSatsPerDay
            (BudgetController.spentLastDay b now).1 amt), BudgetController._prune b now)
        else (none, BudgetController._prune b now) := rfl

/-- The state after `check` is the original controller or its pruned
    form. -/
theorem check_snd_cases (b : BudgetController) (now amt : Nat) (dom : Option String) :
    (BudgetController.check b now amt dom).2 = b ∨
    (BudgetController.check b now amt dom).2 = BudgetController._prune b now := by
  rw [check_eq]
  cases hbd : BudgetController.blockedDomain b dom with
  | some d => exact Or.inl rfl
  | none => simp only; split_ifs <;> simp

/-- The error side of `check`, by branch. -/
theorem check_fst_eq (b : BudgetController) (now amt : Nat) (dom : Option String) :
    (BudgetController.check b now amt dom).1 =
      match BudgetController.blockedDomain b dom with
      | some d => some (L402Err.domainNotAllowed d)
      | none =>
        if b.maxSatsPerRequest < amt then
          some (L402Err.budgetExceeded "per_request" b.maxSatsPerRequest 0 amt)
        else if b.maxSatsPerHour < (BudgetController.spentLastHour b now).1 + amt then
          some (L402Err.budgetExceeded "per_hour" b.maxSatsPerHour
            (BudgetController.spentLastHour b now).1 amt)
        else if b.maxSatsPerDay < (BudgetController.spentLastDay b now).1 + amt then
          some (L402Err.budgetExceeded "per_day" b.maxSatsPerDay
            (BudgetController.spentLastDay b now).1 amt)
        else none := by
  rw [check_eq]
  cases hbd : BudgetController.blockedDomain b dom with
  | some d => rfl
  | none => simp only; split_ifs <;> rfl

/-- C3 (corrected), counterexample to the claim as stated: a check that
    violates no limit still mutates the recorded-payment state, because
    `check` prunes entries older than 24 hours. -/
theorem claim3_counterexample :
    (BudgetController.check { payments := [⟨0, 5⟩] } 86400001 1 none).2
      ≠ ({ payments := [⟨0, 5⟩] } : BudgetController) := by decide

/-- C3 (amended): the limit checks of `check` run in the fixed order
    domain allow-list, per-request, per-hour, per-day, and the first
    violated limit determines the error; `check` never appends a
    payment — its only state effect is dropping entries older than 24
    hours, which leaves `spentLastHour` and `spentLastDay` readings at
    the same or any later time unchanged. -/
theorem claim3_check_order_and_prune_only (b : BudgetController) (now now2 amt : Nat)
    (dom : Option String) (hle : now ≤ now2) :
    List.IsSuffix (BudgetController.check b now amt dom).2.payments b.payments ∧
    (BudgetController.spentLastHour (BudgetController.check b now amt dom).2 now2).1
      = (BudgetController.spentLastHour b now2).1 ∧
    (BudgetController.spentLastDay (BudgetController.check b now amt dom).2 now2).1
      = (BudgetController.spentLastDay b now2).1 ∧
    (∀ d, BudgetController.blockedDomain b dom = some d →
      (BudgetController.check b now amt dom).1 = some (L402Err.domainNotAllowed d)) ∧
    (BudgetController.blockedDomain b dom = none → b.maxSatsPerRequest < amt →
      (BudgetController.check b now amt dom).1
        = some (L402Err.budgetExceeded "per_request" b.maxSatsPerRequest 0 amt)) ∧
    (BudgetController.blockedDomain b dom = none → amt ≤ b.maxSatsPerRequest →
      b.maxSatsPerHour < (BudgetController.spentLastHour b now).1 + amt →
      (BudgetController.check b now amt dom).1
        = some (L402Err.budgetExceeded "per_hour" b.maxSatsPerHour
            (BudgetController.spentLastHour b now).1 amt)) ∧
    (BudgetController.blockedDomain b dom = none → amt ≤ b.maxSatsPerRequest →
      (BudgetController.spentLastHour b now).1 + amt ≤ b.maxSatsPerHour →
      b.maxSatsPerDay < (BudgetController.spentLastDay b now).1 + amt →
      (BudgetController.check b now amt dom).1
        = some (L402Err.budgetExceeded "per_day" b.maxSatsPerDay
            (BudgetController.spentLastDay b now).1 amt)) ∧
    (BudgetController.blockedDomain b dom = none → amt ≤ b.maxSatsPerRequest →
      (BudgetController.spentLastHour b now).1 + amt ≤ b.maxSatsPerHour →
      (BudgetController.spentLastDay b now).1 + amt ≤ b.maxSatsPerDay →
      (BudgetController.check b now amt dom).1 = none) := by
  have hf := check_fst_eq b now amt dom
  refine ⟨?_, ?_, ?_, ?_, ?_, ?_, ?_, ?_⟩
  · rcases check_snd_cases b now amt dom with h2 | h2 <;> rw [h2]
    exact List.dropWhile_suffix _
  · rcases check_snd_cases b now amt dom with h2 | h2 <;> rw [h2]
    exact spentLastHour_prune b now now2 hle
  · rcases check_snd_cases b now amt dom with h2 | h2 <;> rw [h2]
    exact spentLastDay_prune b now now2 hle
  · intro d hd
    rw [hf, hd]
  · intro hd hreq
    rw [hf, hd]
    simp only [if_pos hreq]
  · intro hd hreq hhour
    rw [hf, hd]
    simp only
    rw [if_neg (by omega), if_pos hhour]
  · intro hd hreq hhour hday
    rw [hf, hd]
    simp only
    rw [if_neg (by omega), if_neg (by omega), if_pos hday]
  · intro hd hreq hhour hday
    rw [hf, hd]
    simp only
    rw [if_neg (by omega), if_neg (by omega), if_neg (by omega)]

/-- Witness for C3 (amended) at a concrete controller and time. -/
theorem claim3_witness :
    (BudgetController.spentLastHour
        (BudgetController.check { payments := [⟨0, 5⟩] } 86400001 1 none).2 86400001).1
      = (BudgetController.spentLastHour
          ({ payments := [⟨0, 5⟩] } : BudgetController) 86400001).1 :=
  (claim3_check_order_and_prune_only { payments := [⟨0, 5⟩] } 86400001 86400001 1 none
    (by decide)).2.1

/-- Modelled from the spec's words for claim C4: the sum of recorded
    payment amounts whose timestamp lies in the half-open interval
    `(t - 3600000, t]`. Compared against the source's `spentLastHour`,
    which uses `timestamp >= t - 3600000`. -/
def specHalfOpenHourSum (b : BudgetController) (t : Nat) : Nat :=
  ((b.payments.filter fun p =>
      decide (t - 3600000 < p.timestamp) && decide (p.timestamp ≤ t)).map
    Payment.amount).sum

/-- C4 (corrected), counterexample to the claim as stated: a payment
    recorded exactly at the window boundary `t - 3600000` is counted by
    `spentLastHour` (the source compares with `>=`), but lies outside
    the claimed half-open interval `(t - 3600000, t]`. -/
theorem claim4_counterexample :
    (BudgetController.spentLastHour { payments := [⟨0, 5⟩] } 3600000).1
      ≠ specHalfOpenHourSum { payments := [⟨0, 5⟩] } 3600000 := by decide

/-- C4 (amended): when every recorded timestamp is at most `t` (which
    `recordPayment` guarantees for readings at or after the recording
    times), `spentLastHour` at `t` equals the sum over the closed
    interval `[t - 3600000, t]` and `spentLastDay` the sum over
    `[t - 86400000, t]`; a payment whose hourly boundary has strictly
    passed is excluded from the hourly window entries but still counted
    among the daily window entries until 24 hours after it was
    recorded. -/
theorem claim4_window_sums (b : BudgetController) (t : Nat)
    (hts : ∀ p ∈ b.payments, p.timestamp ≤ t) :
    (BudgetController.spentLastHour b t).1 =
      ((b.payments.filter fun p =>
          decide (t - 3600000 ≤ p.timestamp) && decide (p.timestamp ≤ t)).map
        Payment.amount).sum ∧
    (BudgetController.spentLastDay b t).1 =
      ((b.payments.filter fun p =>
          decide (t - 86400000 ≤ p.timestamp) && decide (p.timestamp ≤ t)).map
        Payment.amount).sum ∧
    ∀ p ∈ b.payments, p.timestamp + 3600000 < t →
      (p ∉ (BudgetController._prune b t).payments.filter fun q =>
          decide (t - 3600000 ≤ q.timestamp)) ∧
      (t ≤ p.timestamp + 86400000 →
        p ∈ (BudgetController._prune b t).payments.filter fun q =>
          decide (t - 86400000 ≤ q.timestamp)) := by
  refine ⟨?_, ?_, ?_⟩
  · show BudgetController.windowSum
        (b.payments.dropWhile fun p => decide (p.timestamp < t - 86400000)) (t - 3600000) = _
    rw [windowSum_dropWhile_old b.payments (t - 3600000) (t - 86400000)
      (Nat.sub_le_sub_left (by norm_num) t)]
    have hfil : (b.payments.filter fun p => decide (t - 3600000 ≤ p.timestamp))
        = b.payments.filter fun p =>
            decide (t - 3600000 ≤ p.timestamp) && decide (p.timestamp ≤ t) :=
      List.filter_congr fun a ha => by rw [decide_eq_true (hts a ha), Bool.and_true]
    unfold BudgetController.windowSum
    rw [hfil]
  · show BudgetController.windowSum
        (b.payments.dropWhile fun p => decide (p.timestamp < t - 86400000)) (t - 86400000) = _
    rw [windowSum_dropWhile_old b.payments (t - 86400000) (t - 86400000)
      (Nat.le_refl _)]
    have hfil : (b.payments.filter fun p => decide (t - 86400000 ≤ p.timestamp))
        = b.payments.filter fun p =>
            decide (t - 86400000 ≤ p.timestamp) && decide (p.timestamp ≤ t) :=
      List.filter_congr fun a ha => by rw [decide_eq_true (hts a ha), Bool.and_true]
    unfold BudgetController.windowSum
    rw [hfil]
  · intro p hp hlt
    constructor
    · intro hmem
      rw [List.mem_filter] at hmem
      have h2 := hmem.2
      simp only [decide_eq_true_eq] at h2
      omega
    · intro hle2
      simp only [BudgetController._prune]
      rw [List.mem_filter]
      constructor
      · have hsplit := List.takeWhile_append_dropWhile
          (p := fun q : Payment => decide (q.timestamp < t - 86400000)) (l := b.payments)
        rw [← hsplit] at hp
        rcases List.mem_append.mp hp with htw | hdw
        · have h3 := List.mem_takeWhile_imp htw
          simp only [decide_eq_true_eq] at h3
          omega
        · exact hdw
      · simp only [decide_eq_true_eq]
        omega

/-- Witness for C4 (amended) at a concrete controller and time. -/
theorem claim4_witness :
    (BudgetController.spentLastHour
        ({ payments := [⟨0, 5⟩, ⟨7200000, 3⟩] } : BudgetController) 7200000).1 =
      ((({ payments := [⟨0, 5⟩, ⟨7200000, 3⟩] } : BudgetController).payments.filter fun p =>
          decide (7200000 - 3600000 ≤ p.timestamp) && decide (p.timestamp ≤ 7200000)).map
        Payment.amount).sum :=
  (claim4_window_sums { payments := [⟨0, 5⟩, ⟨7200000, 3⟩] } 7200000 (by decide)).1

/-- C8 (confirmed): with an allow-list configured but no domain (or an
    empty-string domain) passed, the allow-list guard never fires:
    `check` behaves exactly as a call with no domain argument, no
    `DomainNotAllowedError` can result, and the three spending-limit
    checks still run. -/
theorem claim8_no_domain_skips_allowlist (b : BudgetController) (now amt : Nat)
    (dom : Option String) (h : dom = none ∨ dom = some "") :
    BudgetController.blockedDomain b dom = none ∧
    BudgetController.check b now amt dom = BudgetController.check b now amt none ∧
    ∀ d, (BudgetController.check b now amt dom).1 ≠ some (L402Err.domainNotAllowed d) := by
  have hbd : BudgetController.blockedDomain b dom = none := by
    unfold BudgetController.blockedDomain
    rcases h with h | h <;> subst h
    · cases b.allowedDomains <;> rfl
    · cases b.allowedDomains with
      | none => rfl
      | some ds => exact if_neg (by rintro ⟨h1, h2⟩; exact h1 rfl)
  have hbd0 : BudgetController.blockedDomain b none = none := by
    unfold BudgetController.blockedDomain
    cases b.allowedDomains <;> rfl
  refine ⟨hbd, ?_, ?_⟩
  · rw [check_eq b now amt dom, check_eq b now amt none, hbd, hbd0]
  · intro d
    rw [check_fst_eq b now amt dom, hbd]
    simp only
    split_ifs <;> simp

/-- Witness for C8 at a configured allow-list and an absent domain. -/
theorem claim8_witness :
    BudgetController.blockedDomain
      { allowedDomains := some ["api.example.com"] } none = none :=
  (claim8_no_domain_skips_allowlist { allowedDomains := some ["api.example.com"] } 0 1 none
    (Or.inl rfl)).1

/-- C9 (confirmed): all three budget comparisons are strict — `check`
    passes exactly when the domain guard does not fire, the amount is
    at most `maxSatsPerRequest`, and each trailing window sum plus the
    amount is at most its ceiling; reaching a ceiling exactly passes,
    only strictly exceeding it raises. -/
theorem claim9_strict_comparisons (b : BudgetController) (now amt : Nat)
    (dom : Option String) :
    (BudgetController.check b now amt dom).1 = none ↔
      BudgetController.blockedDomain b dom = none ∧
      amt ≤ b.maxSatsPerRequest ∧
      (BudgetController.spentLastHour b now).1 + amt ≤ b.maxSatsPerHour ∧
      (BudgetController.spentLastDay b now).1 + amt ≤ b.maxSatsPerDay := by
  rw [check_fst_eq]
  cases hbd : BudgetController.blockedDomain b dom with
  | some d => simp
  | none =>
    simp only
    split_ifs <;> simp <;> omega

/-- C1 (confirmed): when the configured budget controller's `check`
    rejects the payment during an orchestrated fetch, the error
    propagates to the caller unmodified and `payInvoice` is never
    invoked in that call: no payment is attempted after a policy
    rejection. -/
theorem claim1_policy_rejection_blocks_payment (st : ClientState) (env : FetchEnv)
    (domain pathname : String) (ch : L402Challenge) (b : BudgetController)
    (a : Nat) (e : L402Err)
    (h402 : env.firstResponse.status = 402)
    (hch : findL402Challenge env.firstResponse.wwwAuthenticate = some ch)
    (hb : st.budget = some b)
    (ha : extractAmountSats ch.invoice = some a)
    (he : (BudgetController.check b env.now a (some domain)).1 = some e) :
    (L402Client.fetch st env domain pathname).result = Except.error e ∧
    (L402Client.fetch st env domain pathname).events.countP Event.isPayInvoice = 0 := by
  unfold L402Client.fetch
  simp only [h402, hch, hb, ha]
  rw [if_neg (by simp), he]
  exact ⟨rfl, rfl⟩

/-- Concrete environment for the C1 witness: a 402 with a parseable
    challenge for a 1000-sat invoice against a 5-sat per-request
    ceiling. -/
def c1Env : FetchEnv :=
  { firstResponse := ⟨402, some "L402 macaroon=\"mac1\", invoice=\"lnbc10u1pxx\"", "payment required"⟩
    retryResponse := ⟨200, none, "data"⟩
    walletPay := fun _ => WalletResult.ok "p1"
    now := 0 }

/-- Concrete client state for the C1 witness. -/
def c1St : ClientState :=
  { budget := some { maxSatsPerRequest := 5 }, cache := {}, log := [] }

/-- Witness for C1 at the concrete rejecting configuration. -/
theorem claim1_witness :
    (L402Client.fetch c1St c1Env "api.example.com" "/v1/data").result
      = Except.error (L402Err.budgetExceeded "per_request" 5 0 1000) ∧
    (L402Client.fetch c1St c1Env "api.example.com" "/v1/data").events.countP
      Event.isPayInvoice = 0 :=
  claim1_policy_rejection_blocks_payment c1St c1Env "api.example.com" "/v1/data"
    ⟨"mac1", "lnbc10u1pxx"⟩ { maxSatsPerRequest := 5 } 1000
    (L402Err.budgetExceeded "per_request" 5 0 1000) (by rfl) (by rfl) (by rfl) (by rfl)
    (by rfl)

/-- C5 (confirmed): on a 402 response whose `www-authenticate` header
    yields no parseable challenge (`findL402Challenge` is a total
    function returning null in that case, never an exception), `fetch`
    returns that 402 response unchanged after exactly one underlying
    HTTP call and with no payment attempted. -/
theorem claim5_402_without_challenge_passthrough (st : ClientState) (env : FetchEnv)
    (domain pathname : String)
    (h402 : env.firstResponse.status = 402)
    (hch : findL402Challenge env.firstResponse.wwwAuthenticate = none) :
    (L402Client.fetch st env domain pathname).result = Except.ok env.firstResponse ∧
    (L402Client.fetch st env domain pathname).events.countP Event.isHttpCall = 1 ∧
    (L402Client.fetch st env domain pathname).events.countP Event.isPayInvoice = 0 := by
  unfold L402Client.fetch
  simp only [h402, hch]
  rw [if_neg (by simp)]
  exact ⟨rfl, rfl, rfl⟩

/-- Concrete environment for the C5 witness: a 402 carrying an
    unrelated authentication challenge. -/
def c5Env : FetchEnv :=
  { firstResponse := ⟨402, some "Basic realm=\"pay\"", "payment required"⟩
    retryResponse := ⟨200, none, "data"⟩
    walletPay := fun _ => WalletResult.ok "p1"
    now := 0 }

/-- Concrete client state for the C5 witness. -/
def c5St : ClientState := { budget := some {}, cache := {}, log := [] }

/-- Witness for C5 at the concrete challenge-less 402. -/
theorem claim5_witness :
    (L402Client.fetch c5St c5Env "example.com" "/a").result
      = Except.ok c5Env.firstResponse ∧
    (L402Client.fetch c5St c5Env "example.com" "/a").events.countP Event.isHttpCall = 1 ∧
    (L402Client.fetch c5St c5Env "example.com" "/a").events.countP Event.isPayInvoice = 0 :=
  claim5_402_without_challenge_passthrough c5St c5Env "example.com" "/a" (by rfl) (by rfl)

/-! ## Cache lemmas and claims -/

/-- The eviction loop drops exactly the over-capacity front entries. -/
theorem evictOldest_eq_drop (maxSize : Nat) (l : List (String × L402Credential)) :
    CredentialCache.evictOldest maxSize l = l.drop (l.length - maxSize) := by
  induction l with
  | nil => simp [CredentialCache.evictOldest]
  | cons e rest ih =>
    unfold CredentialCache.evictOldest
    by_cases h : maxSize < rest.length + 1
    · rw [if_pos h, ih]
      have hlen : (e :: rest).length - maxSize = (rest.length - maxSize) + 1 := by
        simp only [List.length_cons]
        omega
      rw [hlen, List.drop_succ_cons]
    · rw [if_neg h]
      have hlen : (e :: rest).length - maxSize = 0 := by
        simp only [List.length_cons]
        omega
      rw [hlen, List.drop_zero]

/-- No entry of `eraseKey key l` carries `key`. -/
theorem eraseKey_no_key (key : String) (l : List (String × L402Credential)) :
    ∀ e ∈ CredentialCache.eraseKey key l, (e.1 == key) = false := by
  intro e he
  have h := (List.mem_filter.mp he).2
  simpa [bne] using h

/-- Deleting an absent key is a no-op. -/
theorem eraseKey_of_lookup_none (key : String) (l : List (String × L402Credential))
    (h : CredentialCache.lookup key l = none) :
    CredentialCache.eraseKey key l = l := by
  apply List.filter_eq_self.mpr
  intro e he
  have hfind : l.find? (fun e => e.1 == key) = none := by
    unfold CredentialCache.lookup at h
    cases hf : l.find? fun e => e.1 == key with
    | none => rfl
    | some v => rw [hf] at h; cases h
  have := List.find?_eq_none.mp hfind e he
  simpa [bne] using this

/-- Looking up `key` in a list that ends with a `key` entry and has no
    other `key` entry finds that last entry. -/
theorem lookup_append_self (l : List (String × L402Credential)) (key : String)
    (cred : L402Credential) (h : ∀ e ∈ l, (e.1 == key) = false) :
    CredentialCache.lookup key (l ++ [(key, cred)]) = some cred := by
  unfold CredentialCache.lookup
  rw [List.find?_append]
  have h1 : l.find? (fun e => e.1 == key) = none := List.find?_eq_none.mpr (by
    intro e he
    simp [h e he])
  rw [h1]
  simp

/-- Looking up through the eviction loop still finds the entry just
    appended at the most-recently-used end, provided the capacity is
    positive and no earlier entry shares the key. -/
theorem lookup_evict_append (maxSize : Nat) (l : List (String × L402Credential))
    (key : String) (cred : L402Credential) (hmax : 0 < maxSize)
    (hl : ∀ e ∈ l, (e.1 == key) = false) :
    CredentialCache.lookup key (CredentialCache.evictOldest maxSize (l ++ [(key, cred)]))
      = some cred := by
  rw [evictOldest_eq_drop]
  have hlen : (l ++ [(key, cred)]).length - maxSize ≤ l.length := by
    simp only [List.length_append, List.length_cons, List.length_nil]
    omega
  rw [List.drop_append_of_le_length hlen]
  apply lookup_append_self
  intro e he
  exact hl e (List.drop_subset _ _ he)

/-- A `put` leaves its own credential findable under its own key
    whenever the capacity is positive. -/
theorem put_lookup_self (st : CredentialCache) (d p mac pre : String)
    (exp : Option (Option Nat)) (now : Nat) (hmax : 0 < st.maxSize) :
    CredentialCache.lookup (cacheKey d p)
        (CredentialCache.put st d p mac pre exp now).2.cache
      = some (CredentialCache.put st d p mac pre exp now).1 :=
  lookup_evict_append st.maxSize (CredentialCache.eraseKey (cacheKey d p) st.cache)
    (cacheKey d p) _ hmax (eraseKey_no_key _ _)

/-- Paths that agree on their first two non-empty segments derive the
    same cache key. -/
theorem cacheKey_take2_eq (d p1 p2 : String)
    (hshare : (pathParts p1).take 2 = (pathParts p2).take 2)
    (hlen : 2 ≤ (pathParts p1).length) :
    cacheKey d p1 = cacheKey d p2 := by
  have hlen2 : 2 ≤ (pathParts p2).length := by
    have hcab := congrArg List.length hshare
    simp only [List.length_take] at hcab
    omega
  simp only [cacheKey]
  rw [if_pos hlen, if_pos hlen2, hshare]

/-- Scenario cache for C6: capacity 2, no default TTL. -/
def c6Cache0 : CredentialCache := { maxSize := 2, defaultTtlMs := none, cache := [] }

/-- C6 scenario after inserting under `/a/x`. -/
def c6Cache1 : CredentialCache :=
  (CredentialCache.put c6Cache0 "e.com" "/a/x" "m1" "p1" (some none) 0).2

/-- C6 scenario after inserting under `/b/x`. -/
def c6Cache2 : CredentialCache :=
  (CredentialCache.put c6Cache1 "e.com" "/b/x" "m2" "p2" (some none) 1).2

/-- C6 scenario after an intervening get on the older `/a/x` key. -/
def c6Cache3 : CredentialCache := (CredentialCache.get c6Cache2 "e.com" "/a/x" 2).2

/-- C6 scenario after inserting a third distinct key at capacity 2. -/
def c6Cache4 : CredentialCache :=
  (CredentialCache.put c6Cache3 "e.com" "/c/x" "m3" "p3" (some none) 3).2

/-- C6 (confirmed): at capacity, a `put` of a fresh key evicts exactly
    the least-recently-accessed entry (the head of the recency order),
    a live `get` moves its entry to the most-recently-used end, and in
    the three-key scenario the intervening `get` on the oldest inserted
    key protects it, so the eviction victim is a different key than the
    least-recently-inserted one. -/
theorem claim6_lru_eviction :
    (∀ (st : CredentialCache) (d p mac pre : String) (exp : Option (Option Nat)) (now : Nat),
      CredentialCache.lookup (cacheKey d p) st.cache = none →
      st.cache.length = st.maxSize → 0 < st.maxSize →
      (CredentialCache.put st d p mac pre exp now).2.cache
        = st.cache.tail
            ++ [(cacheKey d p, ⟨mac, pre, now, CredentialCache.resolvedExpiry st exp now⟩)]) ∧
    (∀ (st : CredentialCache) (d p : String) (now : Nat) (cred : L402Credential),
      CredentialCache.lookup (cacheKey d p) st.cache = some cred →
      CredentialCache.credExpired cred now = false →
      (CredentialCache.get st d p now).1 = some cred ∧
      (CredentialCache.get st d p now).2.cache
        = CredentialCache.eraseKey (cacheKey d p) st.cache ++ [(cacheKey d p, cred)]) ∧
    (c6Cache4.cache.map Prod.fst = [cacheKey "e.com" "/a/x", cacheKey "e.com" "/c/x"] ∧
      (CredentialCache.get c6Cache4 "e.com" "/b/x" 4).1 = none ∧
      (CredentialCache.get c6Cache4 "e.com" "/a/x" 4).1
        = some ⟨"m1", "p1", 0, none⟩) := by
  refine ⟨?_, ?_, by decide⟩
  · intro st d p mac pre exp now hlk hcap hmax
    show CredentialCache.evictOldest st.maxSize
        (CredentialCache.eraseKey (cacheKey d p) st.cache
          ++ [(cacheKey d p, ⟨mac, pre, now, CredentialCache.resolvedExpiry st exp now⟩)]) = _
    rw [eraseKey_of_lookup_none _ _ hlk, evictOldest_eq_drop]
    have hlen : (st.cache
        ++ [(cacheKey d p, (⟨mac, pre, now, CredentialCache.resolvedExpiry st exp now⟩
              : L402Credential))]).length - st.maxSize = 1 := by
      simp only [List.length_append, List.length_cons, List.length_nil]
      omega
    rw [hlen, List.drop_append_of_le_length (by omega), List.drop_one]
  · intro st d p now cred hlk hexp
    simp only [CredentialCache.get, hlk, hexp]
    simp

/-- Witness for C6 at a concrete one-entry cache of capacity 1. -/
theorem claim6_witness :
    (CredentialCache.put
        { maxSize := 1, defaultTtlMs := none,
          cache := [(cacheKey "a.com" "/x/y", ⟨"m", "p", 0, none⟩)] }
        "a.com" "/z/w" "m2" "p2" (some none) 5).2.cache
      = [((cacheKey "a.com" "/x/y", ⟨"m", "p", 0, none⟩) : String × L402Credential)].tail
          ++ [(cacheKey "a.com" "/z/w",
                ⟨"m2", "p2", 5,
                  CredentialCache.resolvedExpiry
                    { maxSize := 1, defaultTtlMs := none,
                      cache := [(cacheKey "a.com" "/x/y", ⟨"m", "p", 0, none⟩)] }
                    (some none) 5⟩)] :=
  claim6_lru_eviction.1
    { maxSize := 1, defaultTtlMs := none,
      cache := [(cacheKey "a.com" "/x/y", ⟨"m", "p", 0, none⟩)] }
    "a.com" "/z/w" "m2" "p2" (some none) 5 (by decide) (by decide) (by decide)

/-- C7 (confirmed): two paths sharing their first two segments derive
    the same cache key under any origin, the key is invariant under
    letter-case changes of the origin, and a `put` under one path
    followed by a `get` under the sibling path (before expiry, with
    positive capacity) returns the stored credential. -/
theorem claim7_cache_key_grouping :
    (∀ (d p1 p2 : String), (pathParts p1).take 2 = (pathParts p2).take 2 →
      2 ≤ (pathParts p1).length → cacheKey d p1 = cacheKey d p2) ∧
    (∀ (d1 d2 p : String),
      Bolt11.trimChars (d1.data.map Char.toLower)
        = Bolt11.trimChars (d2.data.map Char.toLower) →
      cacheKey d1 p = cacheKey d2 p) ∧
    (∀ (st : CredentialCache) (d p1 p2 mac pre : String) (exp : Option (Option Nat))
        (now now2 : Nat),
      (pathParts p1).take 2 = (pathParts p2).take 2 →
      2 ≤ (pathParts p1).length →
      0 < st.maxSize →
      CredentialCache.credExpired (CredentialCache.put st d p1 mac pre exp now).1 now2
        = false →
      (CredentialCache.get (CredentialCache.put st d p1 mac pre exp now).2 d p2 now2).1
        = some (CredentialCache.put st d p1 mac pre exp now).1) := by
  refine ⟨cacheKey_take2_eq, ?_, ?_⟩
  · intro d1 d2 p h
    simp only [cacheKey]
    rw [h]
  · intro st d p1 p2 mac pre exp now now2 hshare hlen hmax hexp
    have hkey : cacheKey d p1 = cacheKey d p2 := cacheKey_take2_eq d p1 p2 hshare hlen
    simp only [CredentialCache.get]
    rw [← hkey, put_lookup_self st d p1 mac pre exp now hmax]
    simp [hexp]

/-- Witness for C7: sibling paths under a mixed-case origin. -/
theorem claim7_witness :
    (CredentialCache.get
        (CredentialCache.put {} "API.example.com" "/v1/data" "mac" "pre" none 0).2
        "API.example.com" "/v1/data/extra" 10).1
      = some (CredentialCache.put {} "API.example.com" "/v1/data" "mac" "pre" none 0).1 :=
  claim7_cache_key_grouping.2.2 {} "API.example.com" "/v1/data" "/v1/data/extra" "mac" "pre"
    none 0 10 (by decide) (by decide) (by decide) (by decide)

/-- C10 (confirmed): after any `put` the cache size is at most the
    configured capacity; with capacity 0 the `put` still returns the
    freshly built credential, but the cache comes out empty and any
    subsequent `get` misses. -/
theorem claim10_capacity_bound :
    (∀ (st : CredentialCache) (d p mac pre : String) (exp : Option (Option Nat)) (now : Nat),
      (CredentialCache.put st d p mac pre exp now).2.cache.length ≤ st.maxSize) ∧
    (∀ (st : CredentialCache) (d p mac pre : String) (exp : Option (Option Nat))
        (now now2 : Nat) (d2 p2 : String), st.maxSize = 0 →
      (CredentialCache.put st d p mac pre exp now).1.macaroon = mac ∧
      (CredentialCache.put st d p mac pre exp now).1.preimage = pre ∧
      (CredentialCache.put st d p mac pre exp now).2.cache = [] ∧
      (CredentialCache.get (CredentialCache.put st d p mac pre exp now).2 d2 p2 now2).1
        = none) := by
  constructor
  · intro st d p mac pre exp now
    show (CredentialCache.evictOldest st.maxSize _).length ≤ st.maxSize
    rw [evictOldest_eq_drop, List.length_drop]
    omega
  · intro st d p mac pre exp now now2 d2 p2 hmax0
    have hev : (CredentialCache.put st d p mac pre exp now).2.cache = [] := by
      show CredentialCache.evictOldest st.maxSize _ = []
      rw [hmax0, evictOldest_eq_drop, Nat.sub_zero, List.drop_length]
    refine ⟨rfl, rfl, hev, ?_⟩
    unfold CredentialCache.get
    rw [hev]
    rfl

/-- Witness for C10 at a concrete zero-capacity cache. -/
theorem claim10_witness :
    (CredentialCache.get
        (CredentialCache.put { maxSize := 0, defaultTtlMs := none, cache := [] }
          "a.com" "/x/y" "m" "p" (some none) 0).2
        "a.com" "/x/y" 1).1 = none :=
  (claim10_capacity_bound.2 { maxSize := 0, defaultTtlMs := none, cache := [] }
    "a.com" "/x/y" "m" "p" (some none) 0 1 "a.com" "/x/y" (by decide)).2.2.2

/-! ## BOLT11 extraction lemmas and claim C2 -/

theorem takeWhile_digits_append (ds rest : List Char) (c : Char)
    (hds : ∀ x ∈ ds, x.isDigit = true) (hc : c.isDigit = false) :
    (ds ++ c :: rest).takeWhile Char.isDigit = ds := by
  rw [List.takeWhile_append_of_pos hds, List.takeWhile_cons_of_neg (by simp [hc])]
  simp

theorem tryMult1_mult (rest : List Char) (m : Char) (hm : Bolt11.isMultChar m = true) :
    Bolt11.tryMult1 (m :: '1' :: rest) = some (some m) := by
  unfold Bolt11.tryMult1
  simp [hm]

theorem tryAmount_mult (ds rest : List Char) (m : Char)
    (hne : ds ≠ []) (hm : Bolt11.isMultChar m = true) :
    Bolt11.tryAmount (ds ++ m :: '1' :: rest) ds.length = some (some ds, some m) := by
  obtain ⟨j, hj⟩ : ∃ j, ds.length = j + 1 := by
    cases ds with
    | nil => exact absurd rfl hne
    | cons a t => exact ⟨t.length, rfl⟩
  rw [hj]
  unfold Bolt11.tryAmount
  rw [show j + 1 = ds.length from hj.symm, List.drop_left, List.take_left,
    tryMult1_mult rest m hm]

theorem tryAmount_nomult (ds rest : List Char) (hne : ds ≠ []) :
    Bolt11.tryAmount (ds ++ '1' :: 'p' :: 'x' :: rest) (ds.length + 1)
      = some (some ds, none) := by
  unfold Bolt11.tryAmount
  have hd1 : (ds ++ '1' :: 'p' :: 'x' :: rest).drop (ds.length + 1) = 'p' :: 'x' :: rest := by
    rw [show ds ++ '1' :: 'p' :: 'x' :: rest = (ds ++ ['1']) ++ ('p' :: 'x' :: rest) by simp]
    exact List.drop_left' (by simp)
  rw [hd1]
  have h1 : Bolt11.tryMult1 ('p' :: 'x' :: rest) = none := rfl
  rw [h1]
  obtain ⟨j, hj⟩ : ∃ j, ds.length = j + 1 := by
    cases ds with
    | nil => exact absurd rfl hne
    | cons a t => exact ⟨t.length, rfl⟩
  rw [hj]
  unfold Bolt11.tryAmount
  rw [show j + 1 = ds.length from hj.symm, List.drop_left, List.take_left]
  have h2 : Bolt11.tryMult1 ('1' :: 'p' :: 'x' :: rest) = some none := rfl
  rw [h2]

theorem matchHrp_bc (tail : List Char) (r : Option (List Char) × Option Char)
    (h : Bolt11.tryAmount tail (tail.takeWhile Char.isDigit).length = some r) :
    Bolt11.matchHrp ('b' :: 'c' :: tail) = some r := by
  unfold Bolt11.matchHrp
  rw [if_pos (by decide)]
  have h1 : (('c' :: tail).takeWhile Char.isDigit).length = 0 := by
    rw [List.takeWhile_cons_of_neg (by decide)]
    rfl
  rw [h1]
  have h2 : Bolt11.tryAmount ('c' :: tail) 0 = none := by
    unfold Bolt11.tryAmount
    rfl
  rw [h2]
  unfold Bolt11.matchHrp
  rw [if_pos (by decide), h]

theorem extractCore_mult (ds rest : List Char) (m : Char) (sc : Bolt11.MultScale)
    (hne : ds ≠ []) (hds : ∀ x ∈ ds, x.isDigit = true)
    (hm : Bolt11.isMultChar m = true) (hmd : m.isDigit = false)
    (hsc : Bolt11.MULTIPLIERS m = some sc) :
    Bolt11.extractCore ('l' :: 'n' :: 'b' :: 'c' :: (ds ++ m :: '1' :: rest))
      = some (Bolt11.digitsVal ds * Bolt11.SATS_PER_BTC * sc.num / sc.denom) := by
  have hM : Bolt11.matchHrp ('b' :: 'c' :: (ds ++ m :: '1' :: rest)) = some (some ds, some m) := by
    apply matchHrp_bc
    rw [takeWhile_digits_append ds _ m hds hmd]
    exact tryAmount_mult ds rest m hne hm
  simp only [Bolt11.extractCore]
  rw [hM]
  show Bolt11.satsOfMatch ds (some m) = _
  simp only [Bolt11.satsOfMatch, hsc]
  rfl

theorem extractCore_nomult (ds rest : List Char)
    (hne : ds ≠ []) (hds : ∀ x ∈ ds, x.isDigit = true) :
    Bolt11.extractCore ('l' :: 'n' :: 'b' :: 'c' :: (ds ++ '1' :: 'p' :: 'x' :: rest))
      = some (Bolt11.digitsVal ds * Bolt11.SATS_PER_BTC) := by
  have hM : Bolt11.matchHrp ('b' :: 'c' :: (ds ++ '1' :: 'p' :: 'x' :: rest))
      = some (some ds, none) := by
    apply matchHrp_bc
    have hk : (ds ++ '1' :: 'p' :: 'x' :: rest).takeWhile Char.isDigit = ds ++ ['1'] := by
      rw [show ds ++ '1' :: 'p' :: 'x' :: rest = (ds ++ ['1']) ++ ('p' :: 'x' :: rest) by simp]
      apply takeWhile_digits_append
      · intro x hx
        rcases List.mem_append.mp hx with h | h
        · exact hds x h
        · rcases List.mem_singleton.mp h with rfl
          decide
      · decide
    rw [hk, List.length_append]
    exact tryAmount_nomult ds rest hne
  simp only [Bolt11.extractCore]
  rw [hM]
  rfl

/-- C2 (corrected), counterexample to the claim as stated: the invoice
    lnbc90071992547409930000p... encodes exactly 2^53 + 1 =
    9,007,199,254,740,993 satoshis under the claimed formula, but the
    source's final `Number(sats)` cast rounds that to the nearest even
    double, 9,007,199,254,740,992, so `extractAmountSats` does not
    return the exact value. -/
theorem claim2_counterexample :
    extractAmountSats "lnbc90071992547409930000p1pxx"
        ≠ some (90071992547409930000 * 100000000 * 1 / 1000000000000) ∧
      extractAmountSats "lnbc90071992547409930000p1pxx" = some 9007199254740992 := by
  constructor
  · decide
  · decide

/-- C2 (amended): the internal arithmetic of `extractAmountSats` is
    exact arbitrary-precision: for any non-empty digit run and
    recognized multiplier the pre-cast result is digits x 100,000,000 x
    scale-numerator divided (truncating) by the scale-denominator, and
    digits x 100,000,000 without a multiplier; the final `Number(sats)`
    cast returns that exact integer whenever it is below 2^53 (every
    realistic amount), and only rounds at or above 2^53. The canonical
    examples — "10" micro, "1" milli, "1000" nano, "1" bare, and a
    no-digit invoice — evaluate through the full function to 1000,
    100000, 100, 100,000,000 and null respectively. -/
theorem claim2_amount_extraction_exact :
    (∀ (ds rest : List Char) (m : Char) (sc : Bolt11.MultScale),
      ds ≠ [] → (∀ x ∈ ds, x.isDigit = true) →
      Bolt11.MULTIPLIERS m = some sc →
      Bolt11.extractCore ('l' :: 'n' :: 'b' :: 'c' :: (ds ++ m :: '1' :: rest))
        = some (Bolt11.digitsVal ds * Bolt11.SATS_PER_BTC * sc.num / sc.denom)) ∧
    (∀ (ds rest : List Char), ds ≠ [] → (∀ x ∈ ds, x.isDigit = true) →
      Bolt11.extractCore ('l' :: 'n' :: 'b' :: 'c' :: (ds ++ '1' :: 'p' :: 'x' :: rest))
        = some (Bolt11.digitsVal ds * Bolt11.SATS_PER_BTC)) ∧
    (∀ n : Nat, n < 2 ^ 53 → jsNumberOfNat n = n) ∧
    extractAmountSats "lnbc10u1pxxxxxx" = some 1000 ∧
    extractAmountSats "lnbc1m1pxxxxxx" = some 100000 ∧
    extractAmountSats "lnbc1000n1pxxxxxx" = some 100 ∧
    extractAmountSats "lnbc11pxxxxxx" = some 100000000 ∧
    extractAmountSats "lnbc1pxxxxxx" = none := by
  refine ⟨?_, extractCore_nomult, ?_, by rfl, by rfl, by rfl, by rfl, by rfl⟩
  · intro ds rest m sc hne hds hsc
    have hmem : m = 'm' ∨ m = 'u' ∨ m = 'n' ∨ m = 'p' := by
      by_contra hc
      push_neg at hc
      simp [Bolt11.MULTIPLIERS, hc.1, hc.2.1, hc.2.2.1, hc.2.2.2] at hsc
    have hm : Bolt11.isMultChar m = true := by
      rcases hmem with rfl | rfl | rfl | rfl <;> decide
    have hmd : m.isDigit = false := by
      rcases hmem with rfl | rfl | rfl | rfl <;> decide
    exact extractCore_mult ds rest m sc hne hds hm hmd hsc
  · intro n h
    unfold jsNumberOfNat
    rw [if_pos h]

/-- Witness for C2: the micro multiplier on the digits "10". -/
theorem claim2_witness :
    Bolt11.extractCore
        ('l' :: 'n' :: 'b' :: 'c' :: (['1', '0'] ++ 'u' :: '1' :: ('p' :: 'x' :: [])))
      = some (Bolt11.digitsVal ['1', '0'] * Bolt11.SATS_PER_BTC
          * (1 : Nat) / (1000000 : Nat)) :=
  claim2_amount_extraction_exact.1 ['1', '0'] ('p' :: 'x' :: []) 'u' ⟨1, 1000000⟩
    (by decide) (by decide) (by decide)

end L402
